import Mathlib

/-!
Verification of the `tbplot` repository against its design specification.

The development shallowly embeds the parts of the code the specification
talks about:

* `tbplot/detail/utils.py` — `with_defaults` and the `FuzzySet` container
  (the spec calls it `ToleranceSet`).  Numeric array entries are modelled
  as rational numbers (`ℚ`), one-dimensional arrays as `List ℚ`.
* `tbplot/results.py` — `StructureMap._filter_csr_matrix` (sparse adjacency
  filtering) and the `to_radii` helper of `StructureMap.plot`.
* `tests/utils/compare_figures.py` — the control flow of
  `AssertFigure.__exit__` and `AssertFigure.report`, modelled as a pure
  function from the scope outcome to the set of performed effects.

Where object identity matters (shallow copies sharing one underlying
`list`, dict mutation) the embedding threads an explicit store of
allocated objects and represents Python references as indices into it.

The file is organised as definitions first, then theorems.
-/

/-! # Definitions -/

/-! ## Items: one-dimensional numeric arrays -/

/-- A numeric vector item stored in a `FuzzySet` (a 1-D `np.ndarray`). -/
abbrev Item := List ℚ

/-- Embedding of `np.allclose(a, b, rtol=rtol, atol=atol)` for two 1-D
arrays of equal length: every component satisfies
`|a_i - b_i| <= atol + rtol * |b_i|` (the second argument is the
reference).  Arrays of different length are modelled as not close;
numpy broadcasting of unequal shapes is outside the scope of the claims,
which only compare same-dimension vectors. -/
def allclose (rtol atol : ℚ) (a b : Item) : Bool :=
  a.length == b.length &&
    (a.zip b).all fun p => decide (|p.1 - p.2| ≤ atol + rtol * |p.2|)

/-- The propositional form of `allclose`: the tolerance predicate
`|v - x| <= atol + rtol * |x|`, element-wise, with `x` the reference. -/
def CloseTo (rtol atol : ℚ) (v x : Item) : Prop :=
  v.length = x.length ∧ ∀ i (hv : i < v.length) (hx : i < x.length),
    |v[i] - x[i]| ≤ atol + rtol * |x[i]|

/-! ## FuzzySet (pure value view)

`FuzzySet` from `tbplot/detail/utils.py`.  This view models the contents
of a single set object; object identity and aliasing of the underlying
`list` are modelled separately below (store view). -/

structure FuzzySet where
  data : List Item
  rtol : ℚ
  atol : ℚ

/-- `FuzzySet.__contains__`:
`any(np.allclose(item, x, rtol=self.rtol, atol=self.atol) for x in self.data)`. -/
def FuzzySet.contains (s : FuzzySet) (item : Item) : Bool :=
  s.data.any fun x => allclose s.rtol s.atol item x

/-- `FuzzySet.add`: `if item not in self: self.data.append(item)`. -/
def FuzzySet.add (s : FuzzySet) (item : Item) : FuzzySet :=
  if s.contains item then s else { s with data := s.data ++ [item] }

/-- `FuzzySet.__iadd__`: `for item in other: self.add(item)`. -/
def FuzzySet.iadd (s : FuzzySet) (other : List Item) : FuzzySet :=
  other.foldl FuzzySet.add s

/-- `FuzzySet.__init__(iterable, rtol, atol)`: start from an empty data
list and `add` each element of the iterable in order. -/
def FuzzySet.init (iterable : List Item) (rtol atol : ℚ) : FuzzySet :=
  FuzzySet.iadd { data := [], rtol := rtol, atol := atol } iterable

/-- Sets reachable through the public operations of `FuzzySet`:
construction (empty or from an iterable, which is `iadd` on an empty
set), `add`, and bulk merge `+=` (`iadd`). -/
inductive FuzzySet.Reachable : FuzzySet → Prop
  | empty (rtol atol : ℚ) : Reachable ⟨[], rtol, atol⟩
  | add (s : FuzzySet) (item : Item) : Reachable s → Reachable (s.add item)
  | iadd (s : FuzzySet) (other : List Item) : Reachable s → Reachable (s.iadd other)

/-- The invariant the code maintains: no stored item is within tolerance
of an earlier-inserted stored item (earlier item as reference). -/
def InsertionSeparated (s : FuzzySet) : Prop :=
  List.Pairwise (fun earlier later => ¬ CloseTo s.rtol s.atol later earlier) s.data

/-- The invariant as the spec claims it: for every pair of stored items,
neither is within tolerance of the other. -/
def MutuallySeparated (s : FuzzySet) : Prop :=
  List.Pairwise
    (fun u v => ¬ CloseTo s.rtol s.atol u v ∧ ¬ CloseTo s.rtol s.atol v u) s.data

/-! ## FuzzySet (store view): object identity and the `__add__` aliasing

Python objects live on a heap; `copy.copy` copies the object's fields but
not the `list` they point to.  The store view makes this explicit: the
`data` attribute of a set object is a reference (an index) into a store
of allocated lists, every mutation goes through the store, and
`copy.copy` duplicates only the reference. -/

/-- The store of allocated Python `list` objects used as `data` fields. -/
abbrev ListStore := List (List Item)

/-- A `FuzzySet` object under the store view: `dataRef` is the reference
held by the `data` attribute. -/
structure FSObj where
  dataRef : ℕ
  rtol : ℚ
  atol : ℚ

/-- Dereference the `data` attribute. -/
def FSObj.getData (s : FSObj) (st : ListStore) : List Item :=
  st.getD s.dataRef []

/-- List-level core of `FuzzySet.add`: append the item to the list unless
some stored item is within tolerance. -/
def addItem (rtol atol : ℚ) (d : List Item) (item : Item) : List Item :=
  if d.any (fun x => allclose rtol atol item x) then d else d ++ [item]

/-- `FuzzySet.__contains__` under the store view. -/
def FSObj.containsSt (s : FSObj) (st : ListStore) (item : Item) : Bool :=
  (s.getData st).any fun x => allclose s.rtol s.atol item x

/-- `FuzzySet.add` under the store view: mutates the referenced list. -/
def FSObj.addSt (s : FSObj) (st : ListStore) (item : Item) : ListStore :=
  if s.containsSt st item then st else st.set s.dataRef (s.getData st ++ [item])

/-- `FuzzySet.__iadd__` under the store view: add each item of the other
set in order.  The iteration is over a snapshot of the other set's data;
this is faithful to Python whenever the two objects do not share their
`data` list (the aliasing hypothesis of the theorem below). -/
def FSObj.iaddSt (s : FSObj) (st : ListStore) (other : List Item) : ListStore :=
  other.foldl (fun st x => s.addSt st x) st

/-- `copy.copy(self)`: a shallow copy duplicates the fields, so the new
object holds the very same `data` reference. -/
def FSObj.copyShallow (s : FSObj) : FSObj := s

/-- `FuzzySet.__add__(self, other)` for a `FuzzySet` argument:
`ret = copy.copy(self); ret += other; return ret`. -/
def FSObj.addObj (a : FSObj) (st : ListStore) (b : FSObj) : ListStore × FSObj :=
  let ret := a.copyShallow
  (ret.iaddSt st (b.getData st), ret)

/-! ## with_defaults (value view)

`with_defaults(options, defaults_dict=None, **defaults_kwargs)` from
`tbplot/detail/utils.py`.  A Python dict is modelled as an association
list keyed by strings; `List.lookup` gives the value semantics the
claims are about (Python dict equality compares key-value sets, so key
order is irrelevant to them).  A `None` argument is `Option.none`. -/

/-- A Python `dict` with string keys. -/
abbrev Dict (V : Type) := List (String × V)

/-- `dict(a, **b)`: a new dict where every binding of `a` is first
copied and then every binding of `b` is applied on top, so a key present
in `b` takes `b`'s value.  In the association-list representation an
earlier entry shadows a later one under `List.lookup`, so the dict
constructed by `dict(a, **b)` is `b ++ a` (a shadowed duplicate key may
remain in the list; `List.lookup` ignores it, which matches the Python
dict's value semantics the claims are stated in). -/
def dictUpdate {V : Type} (a b : Dict V) : Dict V :=
  b ++ a

/-- `with_defaults(options, defaults_dict=None, **defaults_kwargs)`:
```
options = options if options else {}
if defaults_dict:
    options = dict(defaults_dict, **options)
return dict(defaults_kwargs, **options)
```
A falsy `options` (either `None` or an empty dict) is replaced by `{}`;
a falsy `defaults_dict` layer is skipped. -/
def with_defaults {V : Type} (options defaults_dict : Option (Dict V))
    (defaults_kwargs : Dict V) : Dict V :=
  let options1 : Dict V :=
    match options with
    | some o => if o.isEmpty then [] else o
    | none => []
  let options2 : Dict V :=
    match defaults_dict with
    | some d => if d.isEmpty then options1 else dictUpdate d options1
    | none => options1
  dictUpdate defaults_kwargs options2

/-! ## with_defaults (store view): no input dict is mutated

Python dicts are heap objects; `with_defaults` only ever reads its
arguments and builds new dicts with the `dict(...)` constructor.  The
store view threads a heap of allocated dict objects to state this: the
function appends fresh objects and never writes an existing slot. -/

/-- The store of allocated Python `dict` objects. -/
abbrev DictStore (V : Type) := List (Dict V)

/-- Allocate a fresh dict object; returns the extended store and the
reference to the new object. -/
def dallocDict {V : Type} (st : DictStore V) (d : Dict V) : DictStore V × ℕ :=
  (st ++ [d], st.length)

/-- `options = options if options else {}`: a `None` or empty (falsy)
`options` is replaced by a freshly allocated empty dict literal;
otherwise the reference is kept unchanged. -/
def wdStep1 {V : Type} (st : DictStore V) (options : Option ℕ) : DictStore V × ℕ :=
  match options with
  | some r => if (st.getD r []).isEmpty then dallocDict st [] else (st, r)
  | none => dallocDict st []

/-- `if defaults_dict: options = dict(defaults_dict, **options)`: a
truthy defaults layer allocates the merged dict; a `None` or empty one
leaves the current reference unchanged. -/
def wdStep2 {V : Type} (st : DictStore V) (defaults_dict : Option ℕ) (oref : ℕ) :
    DictStore V × ℕ :=
  match defaults_dict with
  | some r => if (st.getD r []).isEmpty then (st, oref)
      else dallocDict st (dictUpdate (st.getD r []) (st.getD oref []))
  | none => (st, oref)

/-- `with_defaults` under the store view:
`return dict(defaults_kwargs, **options)` allocates the result.
`defaults_kwargs` is the dict collected from the keyword arguments,
which Python always constructs fresh for the call, so it is passed by
value. -/
def with_defaults_st {V : Type} (st : DictStore V) (options defaults_dict : Option ℕ)
    (defaults_kwargs : Dict V) : DictStore V × ℕ :=
  let p1 := wdStep1 st options
  let p2 := wdStep2 p1.1 defaults_dict p1.2
  dallocDict p2.1 (dictUpdate defaults_kwargs (p2.1.getD p2.2 []))

/-! ## StructureMap._filter_csr_matrix

A sparse matrix of hopping IDs is modelled as a partial map from
(row, column) to the stored value: `some v` is an explicitly stored
entry (`v` may be 0 — a zero hopping ID is meaningful), `none` an absent
entry.  Hopping IDs are nonnegative integers. -/

/-- Sparse matrix of explicitly stored hopping IDs. -/
abbrev CsrMat := ℕ → ℕ → Option ℕ

/-- `m.data += 1` / `m.data -= 1`: apply `f` to every stored value. -/
def csrMapData (f : ℕ → ℕ) (m : CsrMat) : CsrMat := fun r c => (m r c).map f

/-- `m[idx][:, idx]`: row `r` / column `c` of the result are read from
row `sel r` / column `sel c` of the input.  A boolean mask corresponds
to the selection enumerating its true positions, an integer index array
to the selection itself; either way every entry touching an excluded
site is dropped, because excluded sites are outside the range of the
selection.  Scipy performs the slicing through extractor matrices,
eliding zero-valued entries of the product: an explicitly stored 0 does
not survive, which is the behaviour the source works around
("increment by 1 to preserve zeroes when slicing"). -/
def csrSelect (m : CsrMat) (sel : ℕ → ℕ) : CsrMat := fun r c =>
  match m (sel r) (sel c) with
  | some v => if v = 0 then none else some v
  | none => none

/-- `StructureMap._filter_csr_matrix(csr, idx)`: increment all stored
data by 1, slice rows and columns, decrement back. -/
def filter_csr_matrix (m : CsrMat) (sel : ℕ → ℕ) : CsrMat :=
  csrMapData (fun v => v - 1) (csrSelect (csrMapData (fun v => v + 1) m) sel)

/-! ## StructureMap.plot: the to_radii helper -/

/-- `np.min` of a 1-D array (arrays are nonempty in all uses). -/
def listMin (xs : List ℚ) : ℚ := xs.foldl min (xs.headD 0)

/-- `np.max` of a 1-D array (arrays are nonempty in all uses). -/
def listMax (xs : List ℚ) : ℚ := xs.foldl max (xs.headD 0)

/-- Result of `to_radii`: either a scalar radius, broadcast downstream
to every site by the renderer, or a per-site array of radii. -/
inductive Radii
  | scalar (r : ℚ)
  | array (rs : List ℚ)

/-- `np.allclose(maximum, 0)` with numpy's default tolerances
`rtol=1e-5` and `atol=1e-8`. -/
def npCloseZero (m : ℚ) : Bool := allclose (1/100000) (1/100000000) [m] [0]

/-- `to_radii(data)` from `StructureMap.plot`, in the case where
`site_radius` is a (min, max) pair:
```
positive_data = data - data.min()
maximum = positive_data.max()
if not np.allclose(maximum, 0):
    delta = site_radius[1] - site_radius[0]
    return site_radius[0] + delta * positive_data / maximum
else:
    return site_radius[1]
```
-/
def to_radii (data : List ℚ) (rmin rmax : ℚ) : Radii :=
  let positive_data := data.map (fun v => v - listMin data)
  let maximum := listMax positive_data
  if !(npCloseZero maximum) then
    let delta := rmax - rmin
    Radii.array (positive_data.map (fun p => rmin + delta * p / maximum))
  else
    Radii.scalar rmax

/-- The behaviour C6 claims of `to_radii`: when the shifted maximum is
not numerically close to zero, each site's radius is the linear map
`rmin + (rmax - rmin) * (value - min) / max(values - min)`; when it is
close to zero (in particular for any constant data array), every site
receives the max radius (as a scalar broadcast), with no division
performed. -/
def ToRadiiSpec (data : List ℚ) (rmin rmax : ℚ) : Prop :=
  (npCloseZero (listMax (data.map (fun v => v - listMin data))) = false →
    to_radii data rmin rmax = Radii.array (data.map (fun v =>
      rmin + (rmax - rmin) * (v - listMin data)
        / listMax (data.map (fun w => w - listMin data))))) ∧
  (npCloseZero (listMax (data.map (fun v => v - listMin data))) = true →
    to_radii data rmin rmax = Radii.scalar rmax) ∧
  (∀ (c : ℚ) (n : ℕ), data = List.replicate n c →
    to_radii data rmin rmax = Radii.scalar rmax)

/-! ## AssertFigure: `__exit__` control flow

`tests/utils/compare_figures.py`.  The observable effects of one run of
`AssertFigure.__exit__` are modelled as a record of which actions were
performed; the outcome of the image comparison (an external utility) is
an input of the model.  Source control flow:

```
def __exit__(self, exception, *_):
    if exception:
        return
    ... savefig ...
    if baseline.exists():
        try:
            failure_data = compare_images(...)
        except ValueError as exc:
            if "could not be broadcast" not in str(exc): raise
            else: failure_data = dict(actual=..., expected=...)
        if failure_data:
            self.report(failure_data)
            raise AssertionError(...)
    else:
        os.makedirs(...); shutil.copyfile(actual, baseline)
        self.passed = True
        self.report(None)
    plt.close()
    self._exit_style()
```
-/

/-- Outcome of `compare_images(baseline, actual, tol, in_decorator=True)`. -/
inductive CompareOutcome
  | matchOk
  | mismatch (hasDiff : Bool)
  | broadcastErr
  | otherErr

/-- Which of the effects of `AssertFigure.__exit__` were performed. -/
structure ExitEffects where
  styleRestored : Bool
  figClosed : Bool
  baselineCreated : Bool
  passed : Bool
  copiedActual : Bool
  copiedExpected : Bool
  copiedDiff : Bool
  clearedReports : Bool
  raisedAssertion : Bool
  raisedOther : Bool

/-- No effect performed. -/
def noEffects : ExitEffects :=
  ⟨false, false, false, false, false, false, false, false, false, false⟩

/-- `AssertFigure.__exit__(self, exception, *_)` as a function from the
scope outcome (did the body raise?), the environment (does a baseline
image exist?) and the comparison outcome to the performed effects.
`report(failure_data)` copies the actual and expected images and, when
present in the failure data, the diff image; `report(None)` deletes any
stale report files. -/
def assertFigureExit (exception : Bool) (baselineExists : Bool)
    (cmp : CompareOutcome) : ExitEffects :=
  if exception then
    noEffects
  else if baselineExists then
    match cmp with
    | CompareOutcome.matchOk =>
        { noEffects with figClosed := true, styleRestored := true }
    | CompareOutcome.mismatch hasDiff =>
        { noEffects with
          copiedActual := true
          copiedExpected := true
          copiedDiff := hasDiff
          raisedAssertion := true }
    | CompareOutcome.broadcastErr =>
        { noEffects with
          copiedActual := true
          copiedExpected := true
          raisedAssertion := true }
    | CompareOutcome.otherErr =>
        { noEffects with raisedOther := true }
  else
    { noEffects with
      baselineCreated := true
      passed := true
      clearedReports := true
      figClosed := true
      styleRestored := true }

/-! # Theorems -/

/-! ## Bridging allclose with the claim-level tolerance predicate -/

theorem allclose_eq_true_iff (rtol atol : ℚ) (a b : Item) :
    allclose rtol atol a b = true ↔ CloseTo rtol atol a b := by
  simp only [allclose, Bool.and_eq_true, beq_iff_eq, List.all_eq_true,
    decide_eq_true_eq, CloseTo]
  constructor
  · rintro ⟨hlen, hall⟩
    refine ⟨hlen, fun i hv hx => ?_⟩
    have hmem : (a[i], b[i]) ∈ a.zip b := by
      have hi : i < (a.zip b).length := by
        rw [List.length_zip]; exact lt_min hv hx
      have := List.getElem_mem hi
      rwa [List.getElem_zip] at this
    simpa using hall _ hmem
  · rintro ⟨hlen, hp⟩
    refine ⟨hlen, fun p hmem => ?_⟩
    obtain ⟨i, hi, hpeq⟩ := List.mem_iff_getElem.mp hmem
    rw [List.getElem_zip] at hpeq
    have hia : i < a.length := by
      rw [List.length_zip] at hi; exact lt_of_lt_of_le hi (min_le_left _ _)
    have hib : i < b.length := by
      rw [List.length_zip] at hi; exact lt_of_lt_of_le hi (min_le_right _ _)
    subst hpeq
    exact hp i hia hib

/-! ## C1: membership is an approximate-closeness test -/

/-- C1: membership `v in s` holds iff some stored item `x` in `s.data`
satisfies `|v - x| <= atol + rtol * |x|` element-wise.  The hypothesis
restricts to same-dimension items (unequal shapes would make numpy
broadcast or raise, outside the claim's scope). -/
theorem fuzzyset_contains_iff_exists_close (s : FuzzySet) (v : Item)
    (h : ∀ x ∈ s.data, x.length = v.length) :
    s.contains v = true ↔
      ∃ x ∈ s.data, ∀ i (hv : i < v.length) (hx : i < x.length),
        |v[i] - x[i]| ≤ s.atol + s.rtol * |x[i]| := by
  unfold FuzzySet.contains
  rw [List.any_eq_true]
  constructor
  · rintro ⟨x, hx, hc⟩
    exact ⟨x, hx, ((allclose_eq_true_iff _ _ _ _).mp hc).2⟩
  · rintro ⟨x, hx, hp⟩
    exact ⟨x, hx, (allclose_eq_true_iff _ _ _ _).mpr ⟨(h x hx).symm, hp⟩⟩

/-- Witness for C1 at a concrete set and item. -/
theorem fuzzyset_contains_iff_exists_close_witness :
    (∀ x ∈ (⟨[[1]], 1/1000, 1/100000⟩ : FuzzySet).data, x.length = ([1] : Item).length) ∧
    ((⟨[[1]], 1/1000, 1/100000⟩ : FuzzySet).contains [1] = true ↔
      ∃ x ∈ (⟨[[1]], 1/1000, 1/100000⟩ : FuzzySet).data,
        ∀ i (hv : i < ([1] : Item).length) (hx : i < x.length),
          |([1] : Item)[i] - x[i]| ≤ (1 : ℚ)/100000 + 1/1000 * |x[i]|) :=
  ⟨by simp, fuzzyset_contains_iff_exists_close ⟨[[1]], 1/1000, 1/100000⟩ [1] (by simp)⟩

/-! ## C2: near-duplicates are discarded, first insertion wins -/

/-- C2: starting from an empty set, adding `a` and then a near-duplicate
`b` (with `|a - b| <= atol + rtol * |a|` element-wise) leaves exactly
`[a]`: the set has length 1 and index 0 holds `a`; `b` is discarded, not
merged or averaged. -/
theorem fuzzyset_near_duplicate_keeps_first (rtol atol : ℚ) (a b : Item)
    (hlen : a.length = b.length)
    (hclose : ∀ i (ha : i < a.length) (hb : i < b.length),
      |a[i] - b[i]| ≤ atol + rtol * |a[i]|) :
    (((FuzzySet.init [] rtol atol).add a).add b).data = [a] := by
  have h1 : (FuzzySet.init [] rtol atol).add a = ⟨[a], rtol, atol⟩ := by
    simp [FuzzySet.init, FuzzySet.iadd, FuzzySet.add, FuzzySet.contains]
  have h2 : (⟨[a], rtol, atol⟩ : FuzzySet).contains b = true := by
    have hba : allclose rtol atol b a = true := by
      refine (allclose_eq_true_iff _ _ _ _).mpr ⟨hlen.symm, fun i hb ha => ?_⟩
      rw [abs_sub_comm]
      exact hclose i ha hb
    simp [FuzzySet.contains, hba]
  rw [h1, FuzzySet.add, if_pos h2]

/-- Witness for C2 at concrete near-duplicate vectors. -/
theorem fuzzyset_near_duplicate_keeps_first_witness :
    (([1] : Item).length = ([1] : Item).length) ∧
    (∀ i (ha : i < ([1] : Item).length) (hb : i < ([1] : Item).length),
      |([1] : Item)[i] - ([1] : Item)[i]| ≤ (1 : ℚ)/100000 + 1/1000 * |([1] : Item)[i]|) ∧
    ((((FuzzySet.init [] (1/1000) (1/100000)).add [1]).add [1]).data = [[1]]) := by
  refine ⟨rfl, ?_, ?_⟩
  · intro i ha hb
    have hi : i = 0 := by simp only [List.length_cons, List.length_nil] at ha; omega
    subst hi
    simp only [List.getElem_cons_zero, sub_self, abs_zero, abs_one]
    norm_num
  · refine fuzzyset_near_duplicate_keeps_first (1/1000) (1/100000) [1] [1] rfl ?_
    intro i ha hb
    have hi : i = 0 := by simp only [List.length_cons, List.length_nil] at ha; omega
    subst hi
    simp only [List.getElem_cons_zero, sub_self, abs_zero, abs_one]
    norm_num

/-! ## C3: the deduplication invariant

`FuzzySet.add` only checks the incoming item against the stored items
(with the stored item as the reference of the tolerance predicate), so
the invariant actually maintained is asymmetric: a later-inserted item is
never within tolerance of an earlier one.  The symmetric form claimed by
the spec fails, because `|u - v| <= atol + rtol * |v|` is not a symmetric
relation when `rtol > 0`. -/

theorem insertionSeparated_add (s : FuzzySet) (x : Item)
    (h : InsertionSeparated s) : InsertionSeparated (s.add x) := by
  unfold FuzzySet.add
  cases hc : s.contains x with
  | true => simpa [hc] using h
  | false =>
    simp only [hc, Bool.false_eq_true, if_false]
    unfold InsertionSeparated at h ⊢
    simp only
    rw [List.pairwise_append]
    refine ⟨h, List.pairwise_singleton _ _, fun u hu y hy => ?_⟩
    have hyx : y = x := by simpa using hy
    intro hclose
    rw [hyx] at hclose
    have hany : s.data.any (fun w => allclose s.rtol s.atol x w) = true :=
      List.any_eq_true.mpr ⟨u, hu, (allclose_eq_true_iff _ _ _ _).mpr hclose⟩
    rw [FuzzySet.contains] at hc
    rw [hc] at hany
    exact Bool.false_ne_true hany

theorem insertionSeparated_iadd (other : List Item) (s : FuzzySet)
    (h : InsertionSeparated s) : InsertionSeparated (s.iadd other) := by
  induction other generalizing s with
  | nil => exact h
  | cons i is ih =>
    rw [FuzzySet.iadd, List.foldl_cons]
    exact ih (s.add i) (insertionSeparated_add s i h)

/-- C3 (amended): every `FuzzySet` reachable through the public
operations satisfies the asymmetric dedup invariant: no stored item is
within tolerance `|later - earlier| <= atol + rtol * |earlier|` of an
earlier-inserted stored item. -/
theorem fuzzyset_reachable_insertionSeparated (s : FuzzySet)
    (h : s.Reachable) : InsertionSeparated s := by
  induction h with
  | empty rtol atol => exact List.Pairwise.nil
  | add s x _ ih => exact insertionSeparated_add s x ih
  | iadd s o _ ih => exact insertionSeparated_iadd o s ih

/-- Witness for C3 (amended) at a concretely constructed set. -/
theorem fuzzyset_reachable_insertionSeparated_witness :
    InsertionSeparated (FuzzySet.init [[0], [10005/1000000000]] (1/1000) (1/100000)) :=
  fuzzyset_reachable_insertionSeparated _
    (FuzzySet.Reachable.iadd _ _ (FuzzySet.Reachable.empty (1/1000) (1/100000)))

theorem fuzzyset_init_pair_eval :
    FuzzySet.init [[0], [10005/1000000000]] (1/1000) (1/100000)
      = ⟨[[0], [10005/1000000000]], 1/1000, 1/100000⟩ := by
  have hv : ((0 : ℚ) ≤ 10005/1000000000) := by norm_num
  have hnc : allclose (1/1000) (1/100000) [10005/1000000000] [0] = false := by
    simp only [allclose, List.zip, List.zipWith, List.all, List.length,
      beq_self_eq_true, Bool.true_and, Bool.and_true]
    rw [decide_eq_false_iff_not, sub_zero, abs_zero, mul_zero, add_zero,
      abs_of_nonneg hv]
    norm_num
  have h1 : (⟨[], 1/1000, 1/100000⟩ : FuzzySet).add [0]
      = ⟨[[0]], 1/1000, 1/100000⟩ := by
    simp [FuzzySet.add, FuzzySet.contains]
  have h2 : (⟨[[0]], 1/1000, 1/100000⟩ : FuzzySet).add [10005/1000000000]
      = ⟨[[0], [10005/1000000000]], 1/1000, 1/100000⟩ := by
    have hc : (⟨[[0]], 1/1000, 1/100000⟩ : FuzzySet).contains [10005/1000000000] = false := by
      rw [FuzzySet.contains]
      show List.any [[0]] (fun x => allclose (1/1000) (1/100000) [10005/1000000000] x) = false
      rw [List.any_cons, List.any_nil, Bool.or_false]
      exact hnc
    rw [FuzzySet.add, hc]
    simp
  rw [FuzzySet.init, FuzzySet.iadd]
  simp only [List.foldl_cons, List.foldl_nil]
  rw [h1, h2]

/-- C3 counterexample: the set built from the two vectors `[0]` and
`[10005/1000000000]` with the default tolerances `rtol = 1/1000`,
`atol = 1/100000` stores both items (the second is farther than
`atol + rtol * |0|` from the first), yet the first stored item IS within
tolerance of the second (`|0 - v| <= atol + rtol * |v|`), refuting the
claimed symmetric invariant "for every pair of stored items, neither is
within tolerance of the other". -/
theorem fuzzyset_mutual_separation_counterexample :
    ¬ MutuallySeparated (FuzzySet.init [[0], [10005/1000000000]] (1/1000) (1/100000)) := by
  intro hM
  unfold MutuallySeparated at hM
  rw [fuzzyset_init_pair_eval] at hM
  rw [List.pairwise_cons] at hM
  have hpair := hM.1 [10005/1000000000] (by simp)
  refine hpair.1 ⟨rfl, fun i h1 h2 => ?_⟩
  have hi : i = 0 := by simp only [List.length_cons, List.length_nil] at h1; omega
  subst hi
  simp only [List.getElem_cons_zero]
  have hv : ((0 : ℚ) ≤ 10005/1000000000) := by norm_num
  rw [zero_sub, abs_neg, abs_of_nonneg hv]
  norm_num

/-! ## C10: `+` aliases and mutates its left operand -/

theorem addSt_getData (s : FSObj) (st : ListStore) (x : Item)
    (h : s.dataRef < st.length) :
    s.getData (s.addSt st x) = addItem s.rtol s.atol (s.getData st) x := by
  rw [FSObj.addSt, addItem, FSObj.containsSt]
  split
  · rfl
  · rw [FSObj.getData, List.getD_eq_getElem?_getD, List.getElem?_set_self h]
    rfl

theorem addSt_length (s : FSObj) (st : ListStore) (x : Item) :
    (s.addSt st x).length = st.length := by
  rw [FSObj.addSt]
  split
  · rfl
  · exact List.length_set st _ _

theorem iaddSt_getData (other : List Item) (s : FSObj) (st : ListStore)
    (h : s.dataRef < st.length) :
    s.getData (s.iaddSt st other)
      = List.foldl (addItem s.rtol s.atol) (s.getData st) other := by
  induction other generalizing st with
  | nil => rfl
  | cons i is ih =>
    rw [FSObj.iaddSt, List.foldl_cons, List.foldl_cons,
      ← addSt_getData s st i h, ← FSObj.iaddSt]
    exact ih (s.addSt st i) (by rw [addSt_length]; exact h)

theorem addItem_extend (rtol atol : ℚ) (d : List Item) (x : Item) :
    ∃ e, addItem rtol atol d x = d ++ e := by
  rw [addItem]
  split
  · exact ⟨[], (List.append_nil d).symm⟩
  · exact ⟨[x], rfl⟩

theorem foldl_addItem_extend (rtol atol : ℚ) (items : List Item) (d : List Item) :
    ∃ e, List.foldl (addItem rtol atol) d items = d ++ e := by
  induction items generalizing d with
  | nil => exact ⟨[], (List.append_nil d).symm⟩
  | cons i is ih =>
    obtain ⟨e1, he1⟩ := addItem_extend rtol atol d i
    obtain ⟨e2, he2⟩ := ih (addItem rtol atol d i)
    exact ⟨e1 ++ e2, by rw [List.foldl_cons, he2, he1, List.append_assoc]⟩

theorem allclose_refl (rtol atol : ℚ) (hr : 0 ≤ rtol) (ha : 0 ≤ atol)
    (x : Item) : allclose rtol atol x x = true := by
  refine (allclose_eq_true_iff _ _ _ _).mpr ⟨rfl, fun i h1 h2 => ?_⟩
  rw [sub_self, abs_zero]
  exact add_nonneg ha (mul_nonneg hr (abs_nonneg _))

theorem foldl_addItem_contains (rtol atol : ℚ) (hr : 0 ≤ rtol) (ha : 0 ≤ atol)
    (items : List Item) (d : List Item) (x : Item) (hx : x ∈ items) :
    (List.foldl (addItem rtol atol) d items).any
      (fun y => allclose rtol atol x y) = true := by
  induction items generalizing d with
  | nil => cases hx
  | cons i is ih =>
    rw [List.foldl_cons]
    rcases List.mem_cons.mp hx with hxi | hxis
    · subst hxi
      have h0 : (addItem rtol atol d x).any (fun y => allclose rtol atol x y) = true := by
        rw [addItem]
        split
        · assumption
        · rw [List.any_append]
          simp [allclose_refl rtol atol hr ha x]
      obtain ⟨e, he⟩ := foldl_addItem_extend rtol atol is (addItem rtol atol d x)
      rw [he, List.any_append, h0, Bool.true_or]
    · exact ih (addItem rtol atol d i) hxis

/-- C10: evaluating `a + b` on two `FuzzySet` objects with distinct
underlying `data` lists returns an object aliasing `a`'s own data list
(`copy.copy` is shallow), so afterwards `a` itself holds the merged
contents: the result's data equals `a`'s data, and `a` now fuzzily
contains every item of `b`.  The `+` operator therefore mutates its left
operand rather than acting purely. -/
theorem fuzzyset_add_mutates_left_operand (st : ListStore) (a b : FSObj)
    (hr : 0 ≤ a.rtol) (hatol : 0 ≤ a.atol)
    (hne : a.dataRef ≠ b.dataRef) (hval : a.dataRef < st.length) :
    ((a.addObj st b).2.dataRef = a.dataRef) ∧
    ((a.addObj st b).2.getData (a.addObj st b).1 = a.getData (a.addObj st b).1) ∧
    (a.getData (a.addObj st b).1
      = List.foldl (addItem a.rtol a.atol) (a.getData st) (b.getData st)) ∧
    (∀ x ∈ b.getData st, a.containsSt (a.addObj st b).1 x = true) := by
  refine ⟨rfl, rfl, ?_, ?_⟩
  · exact iaddSt_getData (b.getData st) a st hval
  · intro x hx
    rw [FSObj.containsSt]
    have h1 : (a.addObj st b).1 = a.iaddSt st (b.getData st) := rfl
    rw [h1, iaddSt_getData (b.getData st) a st hval]
    exact foldl_addItem_contains a.rtol a.atol hr hatol _ _ x hx

/-- Witness for C10 at a concrete store and pair of set objects. -/
theorem fuzzyset_add_mutates_left_operand_witness :
    ((0 : ℚ) ≤ 1/1000) ∧ ((0 : ℚ) ≤ 1/100000) ∧ (0 ≠ 1) ∧ (0 < 2) ∧
    (((FSObj.addObj ⟨0, 1/1000, 1/100000⟩ [[[1]], [[2]]] ⟨1, 1/1000, 1/100000⟩).2.dataRef = 0) ∧
     ((FSObj.addObj ⟨0, 1/1000, 1/100000⟩ [[[1]], [[2]]] ⟨1, 1/1000, 1/100000⟩).2.getData
        (FSObj.addObj ⟨0, 1/1000, 1/100000⟩ [[[1]], [[2]]] ⟨1, 1/1000, 1/100000⟩).1
      = FSObj.getData ⟨0, 1/1000, 1/100000⟩
          (FSObj.addObj ⟨0, 1/1000, 1/100000⟩ [[[1]], [[2]]] ⟨1, 1/1000, 1/100000⟩).1) ∧
     (FSObj.getData ⟨0, 1/1000, 1/100000⟩
        (FSObj.addObj ⟨0, 1/1000, 1/100000⟩ [[[1]], [[2]]] ⟨1, 1/1000, 1/100000⟩).1
      = List.foldl (addItem (1/1000) (1/100000))
          (FSObj.getData ⟨0, 1/1000, 1/100000⟩ [[[1]], [[2]]])
          (FSObj.getData ⟨1, 1/1000, 1/100000⟩ [[[1]], [[2]]])) ∧
     (∀ x ∈ FSObj.getData ⟨1, 1/1000, 1/100000⟩ [[[1]], [[2]]],
        FSObj.containsSt ⟨0, 1/1000, 1/100000⟩
          (FSObj.addObj ⟨0, 1/1000, 1/100000⟩ [[[1]], [[2]]] ⟨1, 1/1000, 1/100000⟩).1 x = true)) :=
  ⟨by norm_num, by norm_num, by omega, by omega,
    fuzzyset_add_mutates_left_operand [[[1]], [[2]]]
      ⟨0, 1/1000, 1/100000⟩ ⟨1, 1/1000, 1/100000⟩
      (by norm_num) (by norm_num) (by decide) (by decide)⟩

/-! ## C4: with_defaults precedence -/

theorem lookup_dictUpdate {V : Type} (a b : Dict V) (k : String) :
    List.lookup k (dictUpdate a b)
      = Option.or (List.lookup k b) (List.lookup k a) := by
  rw [dictUpdate]
  exact List.lookup_append

/-- C4: the merged mapping resolves every key with priority
options > positional defaults > keyword defaults, and on the spec's
concrete example produces exactly `{hello: 0, world: 5, yes: 3}`. -/
theorem with_defaults_priority :
    (∀ (V : Type) (o dd kw : Dict V) (k : String),
      List.lookup k (with_defaults (some o) (some dd) kw)
        = Option.or (Option.or (List.lookup k o) (List.lookup k dd))
            (List.lookup k kw)) ∧
    (∀ k : String,
      List.lookup k (with_defaults (some [("hello", 0)])
          (some [("hello", 4), ("world", 5)]) [("world", 7), ("yes", 3)])
        = List.lookup k ([("hello", 0), ("world", 5), ("yes", 3)] : Dict ℕ)) := by
  have hgen : ∀ (V : Type) (o dd kw : Dict V) (k : String),
      List.lookup k (with_defaults (some o) (some dd) kw)
        = Option.or (Option.or (List.lookup k o) (List.lookup k dd))
            (List.lookup k kw) := by
    intro V o dd kw k
    rw [with_defaults]
    by_cases ho : o.isEmpty <;> by_cases hd : dd.isEmpty <;>
      simp only [ho, hd, if_true, if_false]
    · rw [List.isEmpty_iff] at ho hd
      subst ho; subst hd
      simp [lookup_dictUpdate]
    · rw [List.isEmpty_iff] at ho
      subst ho
      simp [lookup_dictUpdate]
    · rw [List.isEmpty_iff] at hd
      subst hd
      simp [lookup_dictUpdate, Option.or_none]
    · simp [lookup_dictUpdate, Option.or_assoc]
  refine ⟨hgen, fun k => ?_⟩
  rw [hgen]
  by_cases h1 : k = "hello"
  · subst h1; rfl
  · by_cases h2 : k = "world"
    · subst h2; rfl
    · by_cases h3 : k = "yes"
      · subst h3; rfl
      · have e1 : (k == "hello") = false := by simp [h1]
        have e2 : (k == "world") = false := by simp [h2]
        have e3 : (k == "yes") = false := by simp [h3]
        simp [List.lookup_cons, e1, e2, e3]

/-! ## C9: with_defaults mutates no input mapping -/

theorem wdStep1_extend {V : Type} (st : DictStore V) (o : Option ℕ) :
    ∃ e, (wdStep1 st o).1 = st ++ e := by
  cases o with
  | none => exact ⟨[[]], rfl⟩
  | some r =>
    rw [wdStep1]
    split
    · exact ⟨[[]], rfl⟩
    · exact ⟨[], (List.append_nil st).symm⟩

theorem wdStep2_extend {V : Type} (st : DictStore V) (d : Option ℕ) (oref : ℕ) :
    ∃ e, (wdStep2 st d oref).1 = st ++ e := by
  cases d with
  | none => exact ⟨[], (List.append_nil st).symm⟩
  | some r =>
    rw [wdStep2]
    split
    · exact ⟨[], (List.append_nil st).symm⟩
    · exact ⟨[dictUpdate (st.getD r []) (st.getD oref [])], rfl⟩

/-- C9: `with_defaults` mutates none of its input mappings — every dict
allocated before the call is unchanged in the store afterwards — and the
returned mapping is a fresh allocation, distinct from every input
reference. -/
theorem with_defaults_no_mutation {V : Type} (st : DictStore V)
    (options defaults_dict : Option ℕ) (kw : Dict V) :
    ((with_defaults_st st options defaults_dict kw).1.take st.length = st) ∧
    (∀ r : ℕ, r < st.length → (with_defaults_st st options defaults_dict kw).2 ≠ r) := by
  obtain ⟨e1, he1⟩ := wdStep1_extend st options
  obtain ⟨e2, he2⟩ := wdStep2_extend (wdStep1 st options).1 defaults_dict (wdStep1 st options).2
  have hstore : (with_defaults_st st options defaults_dict kw).1
      = st ++ (e1 ++ (e2 ++ [dictUpdate kw
          (((wdStep2 (wdStep1 st options).1 defaults_dict (wdStep1 st options).2).1).getD
            (wdStep2 (wdStep1 st options).1 defaults_dict (wdStep1 st options).2).2 [])])) := by
    show (wdStep2 (wdStep1 st options).1 defaults_dict (wdStep1 st options).2).1 ++ [_] = _
    rw [he2, he1, List.append_assoc, List.append_assoc]
  have href : (with_defaults_st st options defaults_dict kw).2
      = st.length + (e1.length + e2.length) := by
    show (wdStep2 (wdStep1 st options).1 defaults_dict (wdStep1 st options).2).1.length = _
    rw [he2, he1, List.append_assoc, List.length_append, List.length_append]
  constructor
  · rw [hstore, List.take_left]
  · intro r hr
    rw [href]
    omega

/-- Witness for C9 at a concrete store holding two previously allocated
dicts (the options dict at reference 0 and the defaults dict at 1). -/
theorem with_defaults_no_mutation_witness :
    (0 < ([[("a", 1)], [("c", 9)]] : DictStore ℕ).length) ∧
    ((with_defaults_st ([[("a", 1)], [("c", 9)]] : DictStore ℕ)
        (some 0) (some 1) [("b", 2)]).1.take
          ([[("a", 1)], [("c", 9)]] : DictStore ℕ).length
      = [[("a", 1)], [("c", 9)]]) ∧
    ((with_defaults_st ([[("a", 1)], [("c", 9)]] : DictStore ℕ)
        (some 0) (some 1) [("b", 2)]).2 ≠ 0) :=
  ⟨by decide,
    (with_defaults_no_mutation [[("a", 1)], [("c", 9)]] (some 0) (some 1) [("b", 2)]).1,
    (with_defaults_no_mutation [[("a", 1)], [("c", 9)]] (some 0) (some 1) [("b", 2)]).2
      0 (by decide)⟩

/-! ## C5: adjacency filtering preserves entries, including explicit zeros -/

/-- C5: for every sparse adjacency matrix and every index selection, the
filtered matrix holds at `(r, c)` exactly the entry the input holds at
`(sel r, sel c)`: a stored hopping ID (zero-valued ones included, which
the bare zero-eliding slice `csrSelect` would drop) survives exactly
when both of its sites are retained, and every entry touching an
excluded site is gone because excluded sites are outside the range of
the selection. -/
theorem filter_csr_matrix_preserves (m : CsrMat) (sel : ℕ → ℕ) (r c : ℕ) :
    filter_csr_matrix m sel r c = m (sel r) (sel c) := by
  simp only [filter_csr_matrix, csrMapData, csrSelect]
  cases h : m (sel r) (sel c) with
  | none => simp [h]
  | some v => simp [h]

/-! ## C6: radius scaling -/

theorem foldl_min_replicate (n : ℕ) (c : ℚ) :
    List.foldl min c (List.replicate n c) = c := by
  induction n with
  | zero => rfl
  | succ m ih => rw [List.replicate_succ, List.foldl_cons, min_self]; exact ih

theorem foldl_max_replicate (n : ℕ) (c : ℚ) :
    List.foldl max c (List.replicate n c) = c := by
  induction n with
  | zero => rfl
  | succ m ih => rw [List.replicate_succ, List.foldl_cons, max_self]; exact ih

theorem npCloseZero_zero : npCloseZero 0 = true := by
  simp only [npCloseZero, allclose, List.zip, List.zipWith, List.all,
    List.length, beq_self_eq_true, Bool.true_and, Bool.and_true,
    decide_eq_true_eq]
  rw [sub_self, abs_zero]
  norm_num

/-- C6: the per-site radius computation of `StructureMap.plot` follows
the claimed linear map into [rmin, rmax] and degrades to the max radius
(no division) whenever the shifted maximum is numerically close to zero,
in particular on every constant, nonempty data array. -/
theorem to_radii_linear_map (data : List ℚ) (rmin rmax : ℚ) (h : data ≠ []) :
    ToRadiiSpec data rmin rmax := by
  refine ⟨fun hfar => ?_, fun hclose => ?_, fun c n hdata => ?_⟩
  · rw [to_radii]
    simp only [hfar, Bool.not_false, if_true, List.map_map]
    rfl
  · rw [to_radii]
    simp [hclose]
  · subst hdata
    rcases n with _ | m
    · exact absurd rfl h
    · rw [to_radii]
      have hmin : listMin (List.replicate (m + 1) c) = c := by
        rw [listMin, List.replicate_succ, List.headD_cons, ← List.replicate_succ,
          foldl_min_replicate]
      have hshift : (List.replicate (m + 1) c).map (fun v => v - listMin (List.replicate (m + 1) c))
          = List.replicate (m + 1) 0 := by
        rw [List.map_replicate, hmin, sub_self]
      have hmax : listMax (List.replicate (m + 1) (0 : ℚ)) = 0 := by
        rw [listMax, List.replicate_succ, List.headD_cons, ← List.replicate_succ,
          foldl_max_replicate]
      simp [hshift, hmax, npCloseZero_zero]

/-- Witness for C6 on a concrete constant data array. -/
theorem to_radii_linear_map_witness :
    ToRadiiSpec [2, 2] (3/100) (1/20) :=
  to_radii_linear_map [2, 2] (3/100) (1/20) (by simp)

/-! ## C7 and C8: AssertFigure exit behaviour -/

/-- C7 (divergence): the style state saved on entry is NOT restored when
the body raises (`if exception: return` exits before `_exit_style()`)
nor when the comparison fails (the `raise AssertionError` precedes
`plt.close(); self._exit_style()`); it is restored only on the two
success paths. -/
theorem assertFigure_style_not_restored_on_failure :
    ((assertFigureExit true false CompareOutcome.matchOk).styleRestored = false) ∧
    ((assertFigureExit true true CompareOutcome.matchOk).styleRestored = false) ∧
    ((assertFigureExit false true (CompareOutcome.mismatch true)).styleRestored = false) ∧
    ((assertFigureExit false true CompareOutcome.broadcastErr).styleRestored = false) ∧
    ((assertFigureExit false true CompareOutcome.matchOk).styleRestored = true) ∧
    ((assertFigureExit false false CompareOutcome.matchOk).styleRestored = true) :=
  ⟨rfl, rfl, rfl, rfl, rfl, rfl⟩

/-- C8: when the body completes without exception: with no baseline
present, the rendered image is adopted as the new baseline and the scope
reports success without raising; with a baseline present and a mismatch
reported, the actual and expected images (and the diff image when
available) are copied to the failure-reporting location and an
AssertionError is raised. -/
theorem assertFigure_baseline_and_mismatch_reporting :
    (∀ cmp : CompareOutcome,
      (assertFigureExit false false cmp).baselineCreated = true ∧
      (assertFigureExit false false cmp).passed = true ∧
      (assertFigureExit false false cmp).raisedAssertion = false ∧
      (assertFigureExit false false cmp).raisedOther = false) ∧
    (∀ hasDiff : Bool,
      (assertFigureExit false true (CompareOutcome.mismatch hasDiff)).copiedActual = true ∧
      (assertFigureExit false true (CompareOutcome.mismatch hasDiff)).copiedExpected = true ∧
      (assertFigureExit false true (CompareOutcome.mismatch hasDiff)).copiedDiff = hasDiff ∧
      (assertFigureExit false true (CompareOutcome.mismatch hasDiff)).raisedAssertion = true) :=
  ⟨fun _ => ⟨rfl, rfl, rfl, rfl⟩, fun _ => ⟨rfl, rfl, rfl, rfl⟩⟩
